import Mathlib

/-!
# The Wall: visitor wall and guestbook

A shallow embedding of `main.go`: the request handlers `HandleWall` and
`HandleCreateEntry`, the store helpers `getOrCreateVisitor` and `getEntries`,
the fingerprint function `hashIP`, the palette choice `randomColor` and the
start-up routine `runMigrations`.

Conventions of the embedding.

* A Go `string` is an immutable sequence of bytes: `len s` is the number of
  bytes and `s[:n]` is the slice of the first `n` bytes.  It is modelled by
  `GoString`, a list of bytes.  Text reaches the handlers UTF-8 encoded
  (`utf8`).
* The SQLite database is modelled by the contents of its two tables, each a
  list of rows in insertion order.
* A panic of the Go runtime is the value `none`.
* Outcomes that the program cannot control (the pseudo-random draw, an error
  reported by the database driver) are extra arguments.
-/

namespace TheWall

/-! ## Strings -/

/-- A Go string: a sequence of bytes. -/
abbrev GoString := List UInt8

/-- The UTF-8 bytes of a text, which is how a string literal of the program and
a decoded JSON string are laid out in a Go string. -/
def utf8 (s : String) : GoString :=
  s.data.flatMap String.utf8EncodeChar

/-- Go's `strings.HasSuffix`. -/
def hasSuffix (s suffix : GoString) : Bool :=
  decide (suffix.length ≤ s.length) && (s.drop (s.length - suffix.length) == suffix)

/-- Go's `<` on strings: lexicographic comparison of the bytes as unsigned
numbers, a proper prefix being smaller. -/
def stringLess : GoString → GoString → Bool
  | [], [] => false
  | [], _ :: _ => true
  | _ :: _, [] => false
  | a :: as, b :: bs =>
    if a.toNat < b.toNat then true else if b.toNat < a.toNat then false else stringLess as bs

/-- Insertion of one string into a list sorted by `stringLess`. -/
def insertString (x : GoString) : List GoString → List GoString
  | [] => [x]
  | y :: ys => if stringLess x y then x :: y :: ys else y :: insertString x ys

/-- Go's `sort.Strings`: the strings in increasing order.  Strings that compare
equal are the same string, so the outcome does not depend on the sorting
algorithm; insertion sort is used here. -/
def sortStrings : List GoString → List GoString
  | [] => []
  | x :: xs => insertString x (sortStrings xs)

/-- Go's `strings.Split s sep` for a separator of one byte: the pieces of `s`
between the occurrences of `sep`; always at least one piece. -/
def stringsSplit (sep : UInt8) : GoString → List GoString
  | [] => [[]]
  | b :: bs =>
    if b = sep then [] :: stringsSplit sep bs
    else
      match stringsSplit sep bs with
      | [] => [[b]]
      | p :: ps => (b :: p) :: ps

/-- One lowercase hexadecimal digit. -/
def hexDigit (n : Nat) : UInt8 :=
  if n < 10 then UInt8.ofNat (48 + n) else UInt8.ofNat (87 + n)

/-- Go's `fmt.Sprintf("%x", s)` for a string `s`: two lowercase hexadecimal
digits per byte. -/
def sprintfHex (s : GoString) : GoString :=
  s.flatMap fun b => [hexDigit (b.toNat / 16), hexDigit (b.toNat % 16)]

/-! ## Data model -/

/-- Go's `type Visitor struct`. -/
structure Visitor where
  ID : Nat
  IPHash : GoString
  AssignedColor : GoString
  deriving DecidableEq, Repr

/-- Go's `type GuestbookEntry struct`. -/
structure GuestbookEntry where
  ID : Nat
  Name : GoString
  Message : GoString
  Color : GoString
  deriving DecidableEq, Repr

/-- Go's `type PageData struct`. -/
structure PageData where
  VisitorNumber : Nat
  VisitorColor : GoString
  TotalVisitors : Nat
  Entries : List GuestbookEntry
  TileColors : List GoString
  deriving DecidableEq, Repr

/-- The database behind `s.db`: the rows of the tables `visitors` and
`guestbook_entries`, in insertion order. -/
structure DB where
  visitors : List Visitor
  guestbook_entries : List GuestbookEntry
  deriving DecidableEq, Repr

/-- The database right after the schema has been created. -/
def DB.empty : DB := ⟨[], []⟩

/-- The two errors `QueryRow(...).Scan` is told apart by: `sql.ErrNoRows` and
anything else. -/
inductive SqlError where
  | ErrNoRows
  | other
  deriving DecidableEq, Repr

/-! ## Store primitives -/

/-- Modelled from the spec: the schema files under `db/migrations` are not part
of the sources; the spec gives `id PK autoincrement` for both tables, "monotonically
assigned by the store".  The id of a new row is one more than the largest id
in the table (rows are never deleted), starting at 1. -/
def nextId (ids : List Nat) : Nat :=
  ids.foldl max 0 + 1

/-- The statement `SELECT id, ip_hash, assigned_color FROM visitors WHERE ip_hash = ?`
read through `QueryRow(...).Scan`: the first matching row, or `sql.ErrNoRows`
when there is none; when the driver reports a failure (`lookupFails`), an
error other than `sql.ErrNoRows`. -/
def DB.queryRowVisitor (db : DB) (ipHash : GoString) (lookupFails : Bool) :
    Except SqlError Visitor :=
  if lookupFails then .error .other
  else
    match db.visitors.find? (fun v => v.IPHash == ipHash) with
    | some v => .ok v
    | none => .error .ErrNoRows

/-- The statement `INSERT INTO visitors (ip_hash, assigned_color) VALUES (?, ?)`
run by `s.db.Exec`: the new table and the `sql.Result`, given by its
`LastInsertId`; when the driver reports an error (`execFails`) the table is
unchanged and the result is nil, here `none`. -/
def DB.insertVisitor (db : DB) (ipHash color : GoString) (execFails : Bool) : DB × Option Nat :=
  if execFails then (db, none)
  else
    let id := nextId (db.visitors.map Visitor.ID)
    ({ db with visitors := db.visitors ++ [⟨id, ipHash, color⟩] }, some id)

/-- The statement `SELECT COUNT(*) FROM visitors`. -/
def DB.countVisitors (db : DB) : Nat :=
  db.visitors.length

/-- The statement `INSERT INTO guestbook_entries (name, message, color) VALUES (?, ?, ?)`;
returns the new table and `LastInsertId`. -/
def DB.insertEntry (db : DB) (name message color : GoString) : DB × Nat :=
  let id := nextId (db.guestbook_entries.map GuestbookEntry.ID)
  ({ db with guestbook_entries := db.guestbook_entries ++ [⟨id, name, message, color⟩] }, id)

/-- Insertion of a row into a list ordered by id, largest first. -/
def insertByIdDesc (e : GuestbookEntry) : List GuestbookEntry → List GuestbookEntry
  | [] => [e]
  | x :: xs => if x.ID ≤ e.ID then e :: x :: xs else x :: insertByIdDesc e xs

/-- The clause `ORDER BY id DESC`. -/
def orderByIdDesc : List GuestbookEntry → List GuestbookEntry
  | [] => []
  | e :: es => insertByIdDesc e (orderByIdDesc es)

/-- The statement `SELECT id, name, message, color FROM guestbook_entries ORDER BY id DESC`:
the rows the cursor yields. -/
def DB.queryEntries (db : DB) : List GuestbookEntry :=
  orderByIdDesc db.guestbook_entries

/-! ## `randomColor` -/

/-- The palette of `randomColor`. -/
def colors : List GoString :=
  [utf8 "#ff6b6b", utf8 "#ffa726", utf8 "#ffee58", utf8 "#66bb6a",
   utf8 "#42a5f5", utf8 "#7e57c2", utf8 "#ec407a", utf8 "#26a69a",
   utf8 "#ff7043", utf8 "#8d6e63", utf8 "#78909c", utf8 "#5c6bc0"]

/-- Go's `rand.Intn n`: panics when `n ≤ 0`, otherwise a number in `[0, n)`,
here the one selected by the draw of the generator. -/
def randIntn (draw n : Nat) : Option Nat :=
  if n = 0 then none else some (draw % n)

/-- Go's `randomColor`: `colors[rand.Intn(len(colors))]`; an index out of range
panics. -/
def randomColor (draw : Nat) : Option GoString :=
  match randIntn draw colors.length with
  | none => none
  | some i => colors[i]?

/-! ## `hashIP` -/

/-- Go's `hashIP`: the part of the address before the first `:`, in hexadecimal. -/
def hashIP (ip : GoString) : GoString :=
  let parts := stringsSplit 58 ip
  let ip := match parts with
    | p :: _ => p
    | [] => ip
  sprintfHex ip

/-- Go's `net.JoinHostPort`, which is how the HTTP server writes `RemoteAddr`:
`host:port`, and `[host]:port` when the host contains a colon (an IPv6
literal). -/
def joinHostPort (host port : GoString) : GoString :=
  if host.contains 58 then
    [91] ++ host ++ [93] ++ [58] ++ port
  else
    host ++ [58] ++ port

/-! ## `getOrCreateVisitor` and `getEntries` -/

/-- Go's `getOrCreateVisitor`.  `lookupFails` and `insertFails` say whether the
database driver reports a failure for the lookup and for the insert.  The row
is inserted only when the lookup reports `sql.ErrNoRows`; on any other error
of the lookup the zero `Visitor` is returned.  The error of `Exec` is
discarded, and `result.LastInsertId()` on the nil result of a failed insert
panics. -/
def getOrCreateVisitor (db : DB) (ipHash : GoString) (draw : Nat)
    (lookupFails insertFails : Bool) : Option (Visitor × DB) :=
  match db.queryRowVisitor ipHash lookupFails with
  | .ok v => some (v, db)
  | .error .ErrNoRows =>
    match randomColor draw with
    | none => none
    | some color =>
      match db.insertVisitor ipHash color insertFails with
      | (_, none) => none
      | (db', some id) => some (⟨id, ipHash, color⟩, db')
  | .error .other => some (⟨0, [], []⟩, db)

/-- Go's `getEntries`: `nil` when the query fails (`queryFails`), otherwise the
rows of the cursor appended one by one for as long as `rows.Next()` holds.
`cursorStops` is `some k` when an error ends the iteration after `k` rows
(`rows.Err()` is not read), and `none` when the cursor delivers every row. -/
def getEntries (db : DB) (queryFails : Bool) (cursorStops : Option Nat) : List GuestbookEntry :=
  if queryFails then []
  else
    let rows := match cursorStops with
      | none => db.queryEntries
      | some k => db.queryEntries.take k
    rows.foldl (fun entries e => entries ++ [e]) []

/-! ## `HandleWall` -/

/-- The loop of `HandleWall` over the entries: `colorSet` is the map of colours
seen, `tileColors` the slice built so far; the loop is left as soon as the
slice holds 8 colours. -/
def tileLoop : List GuestbookEntry → (GoString → Bool) → List GoString → List GoString
  | [], _, tileColors => tileColors
  | e :: es, colorSet, tileColors =>
    let step : (GoString → Bool) × List GoString :=
      if !colorSet e.Color then
        (fun c => if c = e.Color then true else colorSet c, tileColors ++ [e.Color])
      else (colorSet, tileColors)
    if step.2.length ≥ 8 then step.2 else tileLoop es step.1 step.2

/-- The tile colours `HandleWall` derives from the entries. -/
def tileColors (entries : List GuestbookEntry) : List GoString :=
  tileLoop entries (fun _ => false) []

/-- Go's `HandleWall` up to the rendering of the template, with the outcomes of
the database operations of `getOrCreateVisitor`, of the count (whose error is
not read, leaving 0) and of `getEntries` as further arguments.  The outer
`none` is a panic; the inner `none` stands for the 404 answer to a path other
than `/`. -/
def HandleWall (db : DB) (path remoteAddr : GoString) (draw : Nat)
    (lookupFails insertFails countFails queryFails : Bool) (cursorStops : Option Nat) :
    Option (Option PageData × DB) :=
  if path ≠ utf8 "/" then some (none, db)
  else
    match getOrCreateVisitor db (hashIP remoteAddr) draw lookupFails insertFails with
    | none => none
    | some (visitor, db') =>
      let totalVisitors := if countFails then 0 else db'.countVisitors
      let entries := getEntries db' queryFails cursorStops
      some (some ⟨visitor.ID, visitor.AssignedColor, totalVisitors, entries, tileColors entries⟩, db')

/-! ## `HandleCreateEntry` -/

/-- The request body of `POST /api/entry` after JSON decoding. -/
structure EntryRequest where
  Name : GoString
  Message : GoString
  Color : GoString
  deriving DecidableEq, Repr

/-- The answer of `HandleCreateEntry`: an error with its status code and text,
or the values handed to the JSON encoder for the created entry (status 200). -/
inductive Response where
  | error (status : Nat) (text : String)
  | created (id : Nat) (name message color : GoString)
  deriving DecidableEq, Repr

/-- The status code of an answer. -/
def Response.status : Response → Nat
  | .error status _ => status
  | .created _ _ _ _ => 200

/-- Go's `HandleCreateEntry`.  `body` is the outcome of decoding the JSON body
(`none`: the decoder reported an error) and `execFails` says whether the
database driver reports an error for the insert. -/
def HandleCreateEntry (db : DB) (body : Option EntryRequest) (execFails : Bool) : Response × DB :=
  match body with
  | none => (.error 400 "invalid json", db)
  | some req =>
    if req.Message = [] ∨ req.Color = [] then
      (.error 400 "message and color required", db)
    else
      let name := if req.Name.length > 15 then req.Name.take 15 else req.Name
      let message := if req.Message.length > 40 then req.Message.take 40 else req.Message
      if execFails then (.error 500 "db error", db)
      else
        let (db', id) := db.insertEntry name message req.Color
        (.created id name message req.Color, db')

/-! ## `runMigrations` -/

/-- The embedded file system `migrationsFS`, whose files are not part of the
sources: the names `ReadDir("db/migrations")` lists (`none`: it fails) and the
content `ReadFile` gives for a name (`none`: it fails). -/
structure MigrationsFS where
  readDir : Option (List GoString)
  readFile : GoString → Option GoString

/-- What `runMigrations` did: the statements handed to `s.db.Exec`, in order,
and whether it returned an error. -/
structure MigrationRun where
  executed : List GoString
  failed : Bool
  deriving DecidableEq, Repr

/-- The second loop of `runMigrations`: read each file and execute its content;
a read error ends the run, an execution error is ignored. -/
def execFiles (fs : MigrationsFS) (execFails : GoString → Bool) :
    List GoString → List GoString → MigrationRun
  | [], executed => ⟨executed, false⟩
  | f :: files, executed =>
    match fs.readFile f with
    | none => ⟨executed, true⟩
    | some content =>
      if execFails content then execFiles fs execFails files (executed ++ [content])
      else execFiles fs execFails files (executed ++ [content])

/-- Go's `runMigrations`. -/
def runMigrations (fs : MigrationsFS) (execFails : GoString → Bool) : MigrationRun :=
  match fs.readDir with
  | none => ⟨[], true⟩
  | some entries =>
    let files := entries.foldl
      (fun files name => if hasSuffix name (utf8 ".sql") then files ++ [name] else files) []
    execFiles fs execFails (sortStrings files) []

/-! ## Sequences of requests -/

/-- A run of create-entry requests, one after another, each with the outcome of
its JSON decoding and of its insert. -/
def createEntries (db : DB) : List (Option EntryRequest × Bool) → DB
  | [] => db
  | (body, execFails) :: rest => createEntries (HandleCreateEntry db body execFails).2 rest

/-- A run of `getOrCreateVisitor` calls, one after another, each with its
fingerprint and the draw of the random generator, the database operations
succeeding; `none` if a call panics. -/
def visitAll (db : DB) : List (GoString × Nat) → Option DB
  | [] => some db
  | (ipHash, draw) :: rest =>
    match getOrCreateVisitor db ipHash draw false false with
    | none => none
    | some (_, db') => visitAll db' rest

/-! ## Reference definition for the tile colours -/

/-- The colours of a list with later duplicates removed: each colour stays at
the place where it is first seen. -/
def firstSeen : List GoString → List GoString
  | [] => []
  | c :: cs => c :: (firstSeen cs).filter (fun x => decide (x ≠ c))

/-! ## Sample inputs -/

/-- A message of 41 bytes, one more than is kept. -/
def sampleMessage : GoString := List.replicate 41 104

/-- A text of `n` copies of the letter e with acute accent (U+00E9), which
takes two bytes in UTF-8. -/
def accentedText (n : Nat) : String := ⟨List.replicate n (Char.ofNat 233)⟩

/-- A request with no name and the given text as message. -/
def textRequest (message : String) : EntryRequest := ⟨[], utf8 message, utf8 "#ff6b6b"⟩

/-- Three requests in a row: one rejected, one whose insert fails, one stored. -/
def sampleRequests : List (Option EntryRequest × Bool) :=
  [(some ⟨utf8 "ann", [], utf8 "#ff6b6b"⟩, false),
   (some (textRequest "lost"), true),
   (some ⟨utf8 "a name of more than fifteen bytes", utf8 "hello wall", utf8 "#ffa726"⟩, false)]

/-- A database with one visitor, from the address `10.0.0.7`. -/
def oneVisitorDB : DB :=
  ⟨[⟨1, hashIP (utf8 "10.0.0.7:443"), utf8 "#ff6b6b"⟩], []⟩

/-- A table whose rows are not stored in the order of their ids. -/
def unorderedDB : DB :=
  ⟨[], [⟨2, utf8 "bo", utf8 "second", utf8 "#ffa726"⟩,
        ⟨5, [], utf8 "fifth", utf8 "#ff6b6b"⟩,
        ⟨1, utf8 "al", utf8 "first", utf8 "#ffa726"⟩]⟩

/-- A directory listing in no particular order: two schema files and a file
that is not one. -/
def sampleNames : List GoString :=
  [utf8 "002_entries.sql", utf8 "README.md", utf8 "001_visitors.sql"]

/-- A file system with the files of `sampleNames`. -/
def sampleFS : MigrationsFS where
  readDir := some sampleNames
  readFile := fun name =>
    if name = utf8 "001_visitors.sql" then some (utf8 "CREATE TABLE visitors (id INTEGER)")
    else if name = utf8 "002_entries.sql" then some (utf8 "CREATE TABLE guestbook_entries (id INTEGER)")
    else if name = utf8 "README.md" then some (utf8 "notes")
    else none

/-- A file system whose directory holds a schema file and an entry of the name
`000_dir.sql` that `ReadFile` cannot read. -/
def unreadableFS : MigrationsFS where
  readDir := some [utf8 "001_visitors.sql", utf8 "000_dir.sql"]
  readFile := fun name =>
    if name = utf8 "001_visitors.sql" then some (utf8 "CREATE TABLE visitors (id INTEGER)")
    else none

/-! # Properties -/

/-! ## Facts about strings -/

theorem length_le_utf8 (s : String) : s.length ≤ (utf8 s).length := by
  have h : ∀ cs : List Char, cs.length ≤ (cs.flatMap String.utf8EncodeChar).length := by
    intro cs
    induction cs with
    | nil => simp
    | cons c cs ih =>
      have hc := Char.utf8Size_pos c
      simp only [List.flatMap_cons, List.length_cons, List.length_append,
        String.length_utf8EncodeChar]
      omega
  exact h s.data

/-! ## `HandleCreateEntry` -/

theorem handleCreateEntry_accept (db : DB) (req : EntryRequest)
    (hm : req.Message ≠ []) (hc : req.Color ≠ []) :
    HandleCreateEntry db (some req) false =
      (.created (nextId (db.guestbook_entries.map GuestbookEntry.ID))
          (req.Name.take 15) (req.Message.take 40) req.Color,
       { db with guestbook_entries := db.guestbook_entries ++
          [⟨nextId (db.guestbook_entries.map GuestbookEntry.ID),
            req.Name.take 15, req.Message.take 40, req.Color⟩] }) := by
  have hn : (if req.Name.length > 15 then req.Name.take 15 else req.Name) = req.Name.take 15 := by
    split
    · rfl
    · exact (List.take_of_length_le (by omega)).symm
  have hmsg : (if req.Message.length > 40 then req.Message.take 40 else req.Message)
      = req.Message.take 40 := by
    split
    · rfl
    · exact (List.take_of_length_le (by omega)).symm
  simp only [HandleCreateEntry, hm, hc, or_self, if_false, hn, hmsg, DB.insertEntry]
  rfl

/-- Claim C3.  For a decoded request, `HandleCreateEntry` answers 400 and leaves the
database as it was exactly when the message or the colour is empty, whatever
the insert would have done; and a request with an empty name, a non-empty
message and a non-empty colour is accepted: it is answered 200 and its row,
with the empty name, is appended. -/
theorem handleCreateEntry_rejects_iff :
    (∀ (db : DB) (req : EntryRequest) (execFails : Bool),
      ((HandleCreateEntry db (some req) execFails).1.status = 400 ∧
        (HandleCreateEntry db (some req) execFails).2 = db) ↔
        (req.Message = [] ∨ req.Color = [])) ∧
    (∀ (db : DB) (message color : GoString), message ≠ [] → color ≠ [] →
      (HandleCreateEntry db (some ⟨[], message, color⟩) false).1.status = 200 ∧
      ∃ id, (HandleCreateEntry db (some ⟨[], message, color⟩) false).2.guestbook_entries =
        db.guestbook_entries ++ [⟨id, [], message.take 40, color⟩]) := by
  refine ⟨?_, ?_⟩
  · intro db req execFails
    constructor
    · rintro ⟨hs, -⟩
      by_contra hne
      rw [not_or] at hne
      cases execFails with
      | true =>
        simp [HandleCreateEntry, hne.1, hne.2, Response.status] at hs
      | false =>
        rw [handleCreateEntry_accept db req hne.1 hne.2] at hs
        simp [Response.status] at hs
    · intro h
      simp [HandleCreateEntry, h, Response.status]
  · intro db message color hm hc
    rw [handleCreateEntry_accept db ⟨[], message, color⟩ hm hc]
    exact ⟨rfl, _, rfl⟩

theorem handleCreateEntry_rejects_iff_witness :
    sampleMessage ≠ [] ∧ utf8 "#fff" ≠ [] ∧
    (HandleCreateEntry DB.empty (some ⟨[], sampleMessage, utf8 "#fff"⟩) false).1.status = 200 ∧
    ∃ id, (HandleCreateEntry DB.empty (some ⟨[], sampleMessage, utf8 "#fff"⟩) false).2.guestbook_entries =
      DB.empty.guestbook_entries ++ [⟨id, [], sampleMessage.take 40, utf8 "#fff"⟩] :=
  ⟨by decide, by decide,
    handleCreateEntry_rejects_iff.2 DB.empty sampleMessage (utf8 "#fff") (by decide) (by decide)⟩

theorem utf8_ascii (cs : List Char) (h : ∀ c ∈ cs, c.val ≤ 0x7f) :
    utf8 ⟨cs⟩ = cs.map fun c => c.val.toUInt8 := by
  induction cs with
  | nil => rfl
  | cons c cs ih =>
    have hc : c.val ≤ 0x7f := h c (List.mem_cons_self _ _)
    have ih2 := ih fun d hd => h d (List.mem_cons_of_mem _ hd)
    simp only [utf8, List.flatMap_cons, List.map_cons] at ih2 ⊢
    rw [ih2]
    simp [String.utf8EncodeChar, hc]

theorem handleCreateEntry_step (db : DB) (body : Option EntryRequest) (execFails : Bool) :
    (HandleCreateEntry db body execFails).2 = db ∨
    ∃ req id, body = some req ∧ req.Message ≠ [] ∧ req.Color ≠ [] ∧
      (HandleCreateEntry db body execFails).2 =
        { db with guestbook_entries := db.guestbook_entries ++
          [⟨id, req.Name.take 15, req.Message.take 40, req.Color⟩] } := by
  cases body with
  | none => left; rfl
  | some req =>
    by_cases h : req.Message = [] ∨ req.Color = []
    · left; simp [HandleCreateEntry, h]
    · rw [not_or] at h
      cases execFails with
      | true => left; simp [HandleCreateEntry, h.1, h.2]
      | false =>
        right
        refine ⟨req, nextId (db.guestbook_entries.map GuestbookEntry.ID), rfl, h.1, h.2, ?_⟩
        rw [handleCreateEntry_accept db req h.1 h.2]

theorem createEntries_keeps_rows (reqs : List (Option EntryRequest × Bool)) (db : DB) :
    db.guestbook_entries <+: (createEntries db reqs).guestbook_entries := by
  induction reqs generalizing db with
  | nil => exact List.prefix_refl _
  | cons r rest ih =>
    obtain ⟨body, execFails⟩ := r
    simp only [createEntries]
    refine List.IsPrefix.trans ?_ (ih _)
    rcases handleCreateEntry_step db body execFails with h | ⟨req, id, -, -, -, h⟩
    · rw [h]
    · rw [h]; exact List.prefix_append _ _

theorem createEntries_invariant (P : GuestbookEntry → Prop)
    (hP : ∀ (req : EntryRequest) (id : Nat), req.Message ≠ [] → req.Color ≠ [] →
      P ⟨id, req.Name.take 15, req.Message.take 40, req.Color⟩)
    (reqs : List (Option EntryRequest × Bool)) (db : DB)
    (hdb : ∀ e ∈ db.guestbook_entries, P e) :
    ∀ e ∈ (createEntries db reqs).guestbook_entries, P e := by
  induction reqs generalizing db with
  | nil => exact hdb
  | cons r rest ih =>
    obtain ⟨body, execFails⟩ := r
    simp only [createEntries]
    apply ih
    rcases handleCreateEntry_step db body execFails with h | ⟨req, id, -, hm, hc, h⟩
    · rw [h]; exact hdb
    · rw [h]
      intro e he
      rcases List.mem_append.1 he with he | he
      · exact hdb e he
      · rw [List.mem_singleton.1 he]; exact hP req id hm hc

/-- Claim C2, amended.  An accepted request (non-empty message and colour, insert
succeeding) is answered with, and stored as, one new row whose colour is the
submitted one and whose message and name are cut by bytes: the first 40 bytes
of a message longer than 40 bytes, the first 15 bytes of a name longer than 15
bytes, and the message or name itself otherwise.  For a text of one-byte
(ASCII) characters the stored message is the text of its first 40 characters
and the stored name the text of its first 15 characters. -/
theorem handleCreateEntry_truncates_bytes (db : DB) (req : EntryRequest)
    (hm : req.Message ≠ []) (hc : req.Color ≠ []) :
    ∃ id name message,
      HandleCreateEntry db (some req) false =
        (.created id name message req.Color,
         { db with guestbook_entries := db.guestbook_entries ++ [⟨id, name, message, req.Color⟩] }) ∧
      (40 < req.Message.length → message = req.Message.take 40 ∧ message.length = 40) ∧
      (req.Message.length ≤ 40 → message = req.Message) ∧
      (15 < req.Name.length → name = req.Name.take 15 ∧ name.length = 15) ∧
      (req.Name.length ≤ 15 → name = req.Name) ∧
      (∀ text : List Char, (∀ c ∈ text, c.val ≤ 0x7f) → req.Message = utf8 ⟨text⟩ →
        message = utf8 ⟨text.take 40⟩) ∧
      (∀ text : List Char, (∀ c ∈ text, c.val ≤ 0x7f) → req.Name = utf8 ⟨text⟩ →
        name = utf8 ⟨text.take 15⟩) := by
  refine ⟨_, _, _, handleCreateEntry_accept db req hm hc, ?_, ?_, ?_, ?_, ?_, ?_⟩
  · intro h; exact ⟨rfl, by simp; omega⟩
  · intro h; exact List.take_of_length_le h
  · intro h; exact ⟨rfl, by simp; omega⟩
  · intro h; exact List.take_of_length_le h
  · intro text ht he
    rw [he, utf8_ascii text ht,
      utf8_ascii (text.take 40) (fun c hc => ht c (List.mem_of_mem_take hc)), List.map_take]
  · intro text ht he
    rw [he, utf8_ascii text ht,
      utf8_ascii (text.take 15) (fun c hc => ht c (List.mem_of_mem_take hc)), List.map_take]

theorem handleCreateEntry_truncates_bytes_witness :
    (textRequest (accentedText 21)).Message ≠ [] ∧ (textRequest (accentedText 21)).Color ≠ [] ∧
    ∃ id name message,
      HandleCreateEntry DB.empty (some (textRequest (accentedText 21))) false =
        (.created id name message (textRequest (accentedText 21)).Color,
         { DB.empty with guestbook_entries :=
            DB.empty.guestbook_entries ++ [⟨id, name, message, (textRequest (accentedText 21)).Color⟩] }) ∧
      (40 < (textRequest (accentedText 21)).Message.length →
        message = (textRequest (accentedText 21)).Message.take 40 ∧ message.length = 40) ∧
      ((textRequest (accentedText 21)).Message.length ≤ 40 →
        message = (textRequest (accentedText 21)).Message) ∧
      (15 < (textRequest (accentedText 21)).Name.length →
        name = (textRequest (accentedText 21)).Name.take 15 ∧ name.length = 15) ∧
      ((textRequest (accentedText 21)).Name.length ≤ 15 → name = (textRequest (accentedText 21)).Name) ∧
      (∀ text : List Char, (∀ c ∈ text, c.val ≤ 0x7f) →
        (textRequest (accentedText 21)).Message = utf8 ⟨text⟩ → message = utf8 ⟨text.take 40⟩) ∧
      (∀ text : List Char, (∀ c ∈ text, c.val ≤ 0x7f) →
        (textRequest (accentedText 21)).Name = utf8 ⟨text⟩ → name = utf8 ⟨text.take 15⟩) :=
  ⟨by decide, by decide,
    handleCreateEntry_truncates_bytes DB.empty (textRequest (accentedText 21)) (by decide) (by decide)⟩

/-- Counterexample to claim C2 as stated.  A message of 21 characters, at most 40, is not stored
unchanged: its 42 bytes are cut to 40, the text of its first 20 characters.
A message of 41 characters is not stored as its first 40 characters either,
but again as its first 20. -/
theorem handleCreateEntry_characters_counterexample :
    (accentedText 21).length ≤ 40 ∧
    (HandleCreateEntry DB.empty (some (textRequest (accentedText 21))) false).2.guestbook_entries.map
        GuestbookEntry.Message ≠ [utf8 (accentedText 21)] ∧
    (HandleCreateEntry DB.empty (some (textRequest (accentedText 21))) false).2.guestbook_entries.map
        GuestbookEntry.Message = [utf8 (accentedText 20)] ∧
    40 < (accentedText 41).length ∧
    (HandleCreateEntry DB.empty (some (textRequest (accentedText 41))) false).2.guestbook_entries.map
        GuestbookEntry.Message ≠ [utf8 ⟨(accentedText 41).data.take 40⟩] ∧
    (HandleCreateEntry DB.empty (some (textRequest (accentedText 41))) false).1 =
      .created 1 [] (utf8 (accentedText 20)) (utf8 "#ff6b6b") := by
  decide

/-- Claim C10.  After any sequence of create-entry requests on an empty table, whatever
the outcome of each decoding and insert, every stored entry has a non-empty
message and a non-empty colour, a name of at most 15 bytes and a message of at
most 40 bytes, hence of at most 15 and 40 characters whenever they are text;
a stored name can be empty; and the rows present before a sequence of requests
are still there after it, unchanged and in the same place, as the first rows
of the table. -/
theorem createEntries_entries_valid :
    (∀ (reqs : List (Option EntryRequest × Bool)),
      ∀ e ∈ (createEntries DB.empty reqs).guestbook_entries,
        e.Message ≠ [] ∧ e.Color ≠ [] ∧ e.Name.length ≤ 15 ∧ e.Message.length ≤ 40 ∧
        (∀ text : String, utf8 text = e.Name → text.length ≤ 15) ∧
        (∀ text : String, utf8 text = e.Message → text.length ≤ 40)) ∧
    (∃ (reqs : List (Option EntryRequest × Bool)),
      ∃ e ∈ (createEntries DB.empty reqs).guestbook_entries, e.Name = []) ∧
    (∀ (db : DB) (reqs : List (Option EntryRequest × Bool)),
      db.guestbook_entries <+: (createEntries db reqs).guestbook_entries) := by
  refine ⟨?_, ?_, fun db reqs => createEntries_keeps_rows reqs db⟩
  · intro reqs
    refine createEntries_invariant
      (fun e => e.Message ≠ [] ∧ e.Color ≠ [] ∧ e.Name.length ≤ 15 ∧ e.Message.length ≤ 40 ∧
        (∀ text : String, utf8 text = e.Name → text.length ≤ 15) ∧
        (∀ text : String, utf8 text = e.Message → text.length ≤ 40)) ?_ reqs DB.empty ?_
    swap
    · intro e he
      simp [DB.empty] at he
    · intro req id hm hc
      have hn15 : (req.Name.take 15).length ≤ 15 := by simp
      have hm40 : (req.Message.take 40).length ≤ 40 := by simp
      refine ⟨?_, hc, hn15, hm40, ?_, ?_⟩
      · cases hmsg : req.Message with
        | nil => exact absurd hmsg hm
        | cons b bs => simp
      · intro text ht
        have := length_le_utf8 text
        rw [ht] at this
        exact le_trans this hn15
      · intro text ht
        have := length_le_utf8 text
        rw [ht] at this
        exact le_trans this hm40
  · exact ⟨[(some (textRequest "hi"), false)], ⟨1, [], utf8 "hi", utf8 "#ff6b6b"⟩, by decide, rfl⟩

theorem createEntries_entries_valid_witness :
    (⟨1, utf8 "a name of more ", utf8 "hello wall", utf8 "#ffa726"⟩ : GuestbookEntry) ∈
      (createEntries DB.empty sampleRequests).guestbook_entries ∧
    (utf8 "hello wall" ≠ [] ∧ utf8 "#ffa726" ≠ [] ∧ (utf8 "a name of more ").length ≤ 15 ∧
      (utf8 "hello wall").length ≤ 40 ∧
      (∀ text : String, utf8 text = utf8 "a name of more " → text.length ≤ 15) ∧
      (∀ text : String, utf8 text = utf8 "hello wall" → text.length ≤ 40)) :=
  ⟨by decide,
    createEntries_entries_valid.1 sampleRequests
      ⟨1, utf8 "a name of more ", utf8 "hello wall", utf8 "#ffa726"⟩ (by decide)⟩

/-! ## `randomColor` and `getOrCreateVisitor` -/

theorem colors_length : colors.length = 12 := rfl

theorem randomColor_eq (draw : Nat) :
    ∃ h : draw % 12 < colors.length, randomColor draw = some (colors.get ⟨draw % 12, h⟩) := by
  have h : draw % 12 < colors.length := by
    rw [colors_length]; exact Nat.mod_lt _ (by decide)
  refine ⟨h, ?_⟩
  simp only [randomColor, randIntn, colors_length]
  simp only [show (12 : Nat) ≠ 0 by decide, if_false]
  exact List.getElem?_eq_getElem h

theorem queryRowVisitor_absent (db : DB) (ipHash : GoString)
    (h : ∀ v ∈ db.visitors, v.IPHash ≠ ipHash) :
    db.queryRowVisitor ipHash false = .error .ErrNoRows := by
  have hf : db.visitors.find? (fun v => v.IPHash == ipHash) = none := by
    rw [List.find?_eq_none]
    intro v hv
    simpa using h v hv
  simp [DB.queryRowVisitor, hf]

theorem queryRowVisitor_cases (db : DB) (ipHash : GoString) :
    (∃ v, v ∈ db.visitors ∧ v.IPHash = ipHash ∧ db.queryRowVisitor ipHash false = .ok v) ∨
    ((∀ v ∈ db.visitors, v.IPHash ≠ ipHash) ∧
      db.queryRowVisitor ipHash false = .error .ErrNoRows) := by
  cases hf : db.visitors.find? (fun v => v.IPHash == ipHash) with
  | some v =>
    left
    refine ⟨v, List.mem_of_find?_eq_some hf, ?_, ?_⟩
    · simpa using List.find?_some hf
    · simp [DB.queryRowVisitor, hf]
  | none =>
    right
    have h : ∀ v ∈ db.visitors, v.IPHash ≠ ipHash := by
      intro v hv
      simpa using (List.find?_eq_none.1 hf) v hv
    exact ⟨h, queryRowVisitor_absent db ipHash h⟩

theorem getOrCreateVisitor_found (db : DB) (ipHash : GoString) (draw : Nat)
    (lookupFails insertFails : Bool) (v : Visitor)
    (h : db.queryRowVisitor ipHash lookupFails = .ok v) :
    getOrCreateVisitor db ipHash draw lookupFails insertFails = some (v, db) := by
  simp [getOrCreateVisitor, h]

theorem getOrCreateVisitor_lookup_error (db : DB) (ipHash : GoString) (draw : Nat)
    (insertFails : Bool) :
    getOrCreateVisitor db ipHash draw true insertFails = some (⟨0, [], []⟩, db) := by
  simp [getOrCreateVisitor, DB.queryRowVisitor]

theorem getOrCreateVisitor_new (db : DB) (ipHash : GoString) (draw : Nat)
    (h : ∀ v ∈ db.visitors, v.IPHash ≠ ipHash) :
    ∃ hd : draw % 12 < colors.length,
      getOrCreateVisitor db ipHash draw false false =
        some (⟨nextId (db.visitors.map Visitor.ID), ipHash, colors.get ⟨draw % 12, hd⟩⟩,
          { db with visitors := db.visitors ++
            [⟨nextId (db.visitors.map Visitor.ID), ipHash, colors.get ⟨draw % 12, hd⟩⟩] }) := by
  obtain ⟨hd, hc⟩ := randomColor_eq draw
  refine ⟨hd, ?_⟩
  simp [getOrCreateVisitor, queryRowVisitor_absent db ipHash h, hc, DB.insertVisitor]

theorem getOrCreateVisitor_insert_error (db : DB) (ipHash : GoString) (draw : Nat)
    (h : ∀ v ∈ db.visitors, v.IPHash ≠ ipHash) :
    getOrCreateVisitor db ipHash draw false true = none := by
  obtain ⟨hd, hc⟩ := randomColor_eq draw
  simp [getOrCreateVisitor, queryRowVisitor_absent db ipHash h, hc, DB.insertVisitor]

theorem queryRowVisitor_appended (db : DB) (v : Visitor)
    (h : ∀ w ∈ db.visitors, w.IPHash ≠ v.IPHash) :
    DB.queryRowVisitor { db with visitors := db.visitors ++ [v] } v.IPHash false = .ok v := by
  have hf : db.visitors.find? (fun w => w.IPHash == v.IPHash) = none := by
    rw [List.find?_eq_none]
    intro w hw
    simpa using h w hw
  simp [DB.queryRowVisitor, List.find?_append, hf]

/-- Claim C1.  For every table, fingerprint and pair of random draws, with the
database operations succeeding, the first call of `getOrCreateVisitor` returns
a visitor and a table, and the second call, made on that table with the second
draw, returns the same visitor (id, fingerprint and colour) and the same
table. -/
theorem getOrCreateVisitor_twice (db : DB) (ipHash : GoString) (draw₁ draw₂ : Nat) :
    ∃ v db₁, getOrCreateVisitor db ipHash draw₁ false false = some (v, db₁) ∧
      getOrCreateVisitor db₁ ipHash draw₂ false false = some (v, db₁) ∧ v.IPHash = ipHash := by
  rcases queryRowVisitor_cases db ipHash with ⟨v, -, hv, hq⟩ | ⟨habs, -⟩
  · exact ⟨v, db, getOrCreateVisitor_found db ipHash draw₁ false false v hq,
      getOrCreateVisitor_found db ipHash draw₂ false false v hq, hv⟩
  · obtain ⟨hd, hnew⟩ := getOrCreateVisitor_new db ipHash draw₁ habs
    refine ⟨_, _, hnew, ?_, rfl⟩
    apply getOrCreateVisitor_found
    exact queryRowVisitor_appended db
      ⟨nextId (db.visitors.map Visitor.ID), ipHash, colors.get ⟨draw₁ % 12, hd⟩⟩ habs

/-- Claim C8, amended.  For every random draw the index `rand.Intn` yields is below the
length 12 of the palette, so `randomColor` returns a palette colour without
panicking.  For a fingerprint that no row of the table carries, when the
lookup and the insert succeed, `getOrCreateVisitor` returns a visitor with the
given fingerprint and that colour and appends exactly one row, holding the
same id, fingerprint and colour, to the table. -/
theorem getOrCreateVisitor_new_visitor (db : DB) (ipHash : GoString) (draw : Nat)
    (h : ∀ v ∈ db.visitors, v.IPHash ≠ ipHash) :
    colors.length = 12 ∧
    (∃ i, randIntn draw colors.length = some i ∧ i < colors.length) ∧
    ∃ id color, color ∈ colors ∧ randomColor draw = some color ∧
      getOrCreateVisitor db ipHash draw false false =
        some (⟨id, ipHash, color⟩, { db with visitors := db.visitors ++ [⟨id, ipHash, color⟩] }) := by
  obtain ⟨hd, hnew⟩ := getOrCreateVisitor_new db ipHash draw h
  obtain ⟨hd2, hc⟩ := randomColor_eq draw
  refine ⟨rfl, ⟨draw % 12, ?_, hd⟩, _, _, List.get_mem _ _ _, hc, hnew⟩
  simp [randIntn, colors_length]

theorem getOrCreateVisitor_new_visitor_witness :
    (∀ v ∈ oneVisitorDB.visitors, v.IPHash ≠ hashIP (utf8 "127.0.0.1:5000")) ∧
    getOrCreateVisitor oneVisitorDB (hashIP (utf8 "127.0.0.1:5000")) 29 false false =
      some (⟨2, utf8 "3132372e302e302e31", utf8 "#7e57c2"⟩,
        { oneVisitorDB with visitors :=
            oneVisitorDB.visitors ++ [⟨2, utf8 "3132372e302e302e31", utf8 "#7e57c2"⟩] }) ∧
    (colors.length = 12 ∧
    (∃ i, randIntn 29 colors.length = some i ∧ i < colors.length) ∧
    ∃ id color, color ∈ colors ∧ randomColor 29 = some color ∧
      getOrCreateVisitor oneVisitorDB (hashIP (utf8 "127.0.0.1:5000")) 29 false false =
        some (⟨id, hashIP (utf8 "127.0.0.1:5000"), color⟩,
          { oneVisitorDB with visitors :=
              oneVisitorDB.visitors ++ [⟨id, hashIP (utf8 "127.0.0.1:5000"), color⟩] })) :=
  ⟨by decide, by decide,
    getOrCreateVisitor_new_visitor oneVisitorDB (hashIP (utf8 "127.0.0.1:5000")) 29 (by decide)⟩

/-- Counterexample to claim C8 as stated.  The fingerprint of `127.0.0.1` is not in the
table.  When the insert fails, `getOrCreateVisitor` returns no visitor: the
call of `LastInsertId` on the nil result panics.  When the lookup fails with an
error other than `sql.ErrNoRows`, it returns the zero visitor, whose
fingerprint is not the given one and whose colour is not in the palette, and
inserts no row. -/
theorem getOrCreateVisitor_store_failure_counterexample :
    (∀ v ∈ oneVisitorDB.visitors, v.IPHash ≠ hashIP (utf8 "127.0.0.1:5000")) ∧
    getOrCreateVisitor oneVisitorDB (hashIP (utf8 "127.0.0.1:5000")) 29 false true = none ∧
    getOrCreateVisitor oneVisitorDB (hashIP (utf8 "127.0.0.1:5000")) 29 true false =
      some (⟨0, [], []⟩, oneVisitorDB) ∧
    ([] : GoString) ≠ hashIP (utf8 "127.0.0.1:5000") ∧
    ([] : GoString) ∉ colors := by
  decide

theorem getOrCreateVisitor_fingerprints (db : DB) (ipHash : GoString) (draw : Nat) :
    ∃ v db', getOrCreateVisitor db ipHash draw false false = some (v, db') ∧
      ((ipHash ∈ db.visitors.map Visitor.IPHash ∧ db' = db) ∨
       (ipHash ∉ db.visitors.map Visitor.IPHash ∧
        db'.visitors.map Visitor.IPHash = db.visitors.map Visitor.IPHash ++ [ipHash])) := by
  rcases queryRowVisitor_cases db ipHash with ⟨v, hmem, hv, hq⟩ | ⟨habs, -⟩
  · refine ⟨v, db, getOrCreateVisitor_found db ipHash draw false false v hq, Or.inl ⟨?_, rfl⟩⟩
    exact List.mem_map.2 ⟨v, hmem, hv⟩
  · obtain ⟨hd, hnew⟩ := getOrCreateVisitor_new db ipHash draw habs
    refine ⟨_, _, hnew, Or.inr ⟨?_, ?_⟩⟩
    · intro hin
      obtain ⟨w, hw, hwf⟩ := List.mem_map.1 hin
      exact habs w hw hwf
    · simp

theorem visitAll_fingerprints (calls : List (GoString × Nat)) (db : DB)
    (hdb : (db.visitors.map Visitor.IPHash).Nodup) :
    ∃ db', visitAll db calls = some db' ∧ (db'.visitors.map Visitor.IPHash).Nodup ∧
      ∀ f, f ∈ db'.visitors.map Visitor.IPHash ↔
        (f ∈ db.visitors.map Visitor.IPHash ∨ f ∈ calls.map Prod.fst) := by
  induction calls generalizing db with
  | nil => exact ⟨db, rfl, hdb, by simp⟩
  | cons call rest ih =>
    obtain ⟨ipHash, draw⟩ := call
    obtain ⟨v, db₁, hcall, hcase⟩ := getOrCreateVisitor_fingerprints db ipHash draw
    have hnd : (db₁.visitors.map Visitor.IPHash).Nodup := by
      rcases hcase with ⟨-, heq⟩ | ⟨hnot, heq⟩
      · rw [heq]; exact hdb
      · rw [heq]
        exact List.Nodup.append hdb (List.nodup_singleton _) (by simpa using hnot)
    obtain ⟨db', hrun, hnd', hmem⟩ := ih db₁ hnd
    refine ⟨db', ?_, hnd', ?_⟩
    · simp [visitAll, hcall, hrun]
    · intro f
      rw [hmem f]
      rcases hcase with ⟨hin, heq⟩ | ⟨-, heq⟩
      · rw [heq]
        simp only [List.map_cons, List.mem_cons]
        constructor
        · rintro (h | h)
          · exact Or.inl h
          · exact Or.inr (Or.inr h)
        · rintro (h | h | h)
          · exact Or.inl h
          · exact Or.inl (h ▸ hin)
          · exact Or.inr h
      · rw [heq]
        simp only [List.map_cons, List.mem_cons, List.mem_append, List.mem_singleton]
        tauto

/-- Claim C6.  After any sequence of `getOrCreateVisitor` calls on an empty table, with
any random draws and the database operations succeeding, no call panics, no two rows of the table carry the same
fingerprint and the number of rows, which is what `SELECT COUNT(*)` reports,
is the number of distinct fingerprints among the calls.  After one call for
the fingerprint `127.0.0.1` the count is 1, and after a further call for
another fingerprint it is 2. -/
theorem visitAll_count :
    (∀ calls : List (GoString × Nat),
      ∃ db, visitAll DB.empty calls = some db ∧
        (db.visitors.map Visitor.IPHash).Nodup ∧
        db.countVisitors = (calls.map Prod.fst).toFinset.card) ∧
    (∀ draw₁ draw₂ : Nat,
      (visitAll DB.empty [(utf8 "127.0.0.1", draw₁)]).map DB.countVisitors = some 1 ∧
      (visitAll DB.empty [(utf8 "127.0.0.1", draw₁), (utf8 "10.0.0.7", draw₂)]).map
        DB.countVisitors = some 2) := by
  have main : ∀ calls : List (GoString × Nat),
      ∃ db, visitAll DB.empty calls = some db ∧
        (db.visitors.map Visitor.IPHash).Nodup ∧
        db.countVisitors = (calls.map Prod.fst).toFinset.card := by
    intro calls
    obtain ⟨db, hrun, hnd, hmem⟩ := visitAll_fingerprints calls DB.empty (by simp [DB.empty])
    refine ⟨db, hrun, hnd, ?_⟩
    have hset : (db.visitors.map Visitor.IPHash).toFinset = (calls.map Prod.fst).toFinset := by
      ext f
      simp only [List.mem_toFinset]
      rw [hmem f]
      simp [DB.empty]
    rw [← hset, List.toFinset_card_of_nodup hnd]
    simp [DB.countVisitors]
  refine ⟨main, fun draw₁ draw₂ => ⟨?_, ?_⟩⟩
  · obtain ⟨db, hrun, -, hcount⟩ := main [(utf8 "127.0.0.1", draw₁)]
    rw [hrun, Option.map_some', hcount]
    rfl
  · obtain ⟨db, hrun, -, hcount⟩ := main [(utf8 "127.0.0.1", draw₁), (utf8 "10.0.0.7", draw₂)]
    rw [hrun, Option.map_some', hcount]
    show some ([utf8 "127.0.0.1", utf8 "10.0.0.7"].toFinset.card) = some 2
    decide

/-! ## `getEntries` -/

theorem foldl_append_singleton (rows acc : List GuestbookEntry) :
    rows.foldl (fun entries e => entries ++ [e]) acc = acc ++ rows := by
  induction rows generalizing acc with
  | nil => simp
  | cons e rows ih => simp [ih]

theorem getEntries_eq (db : DB) :
    getEntries db false none = orderByIdDesc db.guestbook_entries := by
  simp [getEntries, DB.queryEntries, foldl_append_singleton]

theorem getEntries_cursor (db : DB) (k : Nat) :
    getEntries db false (some k) = (orderByIdDesc db.guestbook_entries).take k := by
  simp [getEntries, DB.queryEntries, foldl_append_singleton]

theorem insertByIdDesc_perm (e : GuestbookEntry) (rows : List GuestbookEntry) :
    (insertByIdDesc e rows).Perm (e :: rows) := by
  induction rows with
  | nil => exact List.Perm.refl _
  | cons x xs ih =>
    simp only [insertByIdDesc]
    split
    · exact List.Perm.refl _
    · exact (List.Perm.cons x ih).trans (List.Perm.swap e x xs)

theorem orderByIdDesc_perm (rows : List GuestbookEntry) : (orderByIdDesc rows).Perm rows := by
  induction rows with
  | nil => exact List.Perm.refl _
  | cons e es ih =>
    simp only [orderByIdDesc]
    exact (insertByIdDesc_perm e _).trans (List.Perm.cons e ih)

theorem insertByIdDesc_sorted (e : GuestbookEntry) (rows : List GuestbookEntry)
    (h : rows.Pairwise fun a b => b.ID ≤ a.ID) :
    (insertByIdDesc e rows).Pairwise fun a b => b.ID ≤ a.ID := by
  induction rows with
  | nil => simp [insertByIdDesc]
  | cons x xs ih =>
    rw [List.pairwise_cons] at h
    simp only [insertByIdDesc]
    split
    · rename_i hle
      refine List.pairwise_cons.2 ⟨?_, List.pairwise_cons.2 h⟩
      intro b hb
      rcases List.mem_cons.1 hb with hb | hb
      · rw [hb]; exact hle
      · exact le_trans (h.1 b hb) hle
    · rename_i hnle
      refine List.pairwise_cons.2 ⟨?_, ih h.2⟩
      intro b hb
      rcases List.mem_cons.1 ((insertByIdDesc_perm e xs).subset hb) with hb | hb
      · rw [hb]; omega
      · exact h.1 b hb

theorem orderByIdDesc_sorted (rows : List GuestbookEntry) :
    (orderByIdDesc rows).Pairwise fun a b => b.ID ≤ a.ID := by
  induction rows with
  | nil => simp [orderByIdDesc]
  | cons e es ih => exact insertByIdDesc_sorted e _ ih

theorem le_foldl_max (ids : List Nat) (a : Nat) :
    a ≤ ids.foldl max a ∧ ∀ x ∈ ids, x ≤ ids.foldl max a := by
  induction ids generalizing a with
  | nil => simp
  | cons y ys ih =>
    simp only [List.foldl_cons, List.mem_cons]
    obtain ⟨h1, h2⟩ := ih (max a y)
    refine ⟨le_trans (le_max_left a y) h1, ?_⟩
    rintro x (hx | hx)
    · rw [hx]; exact le_trans (le_max_right a y) h1
    · exact h2 x hx

theorem lt_nextId (ids : List Nat) : ∀ x ∈ ids, x < nextId ids := by
  intro x hx
  have := (le_foldl_max ids 0).2 x hx
  simp only [nextId]
  omega

theorem createEntries_ids_increasing (reqs : List (Option EntryRequest × Bool)) (db : DB)
    (hdb : (db.guestbook_entries.map GuestbookEntry.ID).Pairwise (· < ·)) :
    ((createEntries db reqs).guestbook_entries.map GuestbookEntry.ID).Pairwise (· < ·) := by
  induction reqs generalizing db with
  | nil => exact hdb
  | cons r rest ih =>
    obtain ⟨body, execFails⟩ := r
    simp only [createEntries]
    apply ih
    cases body with
    | none => exact hdb
    | some req =>
      by_cases h : req.Message = [] ∨ req.Color = []
      · simpa [HandleCreateEntry, h] using hdb
      · rw [not_or] at h
        cases execFails with
        | true => simpa [HandleCreateEntry, h.1, h.2] using hdb
        | false =>
          rw [handleCreateEntry_accept db req h.1 h.2]
          simp only [List.map_append, List.map_cons, List.map_nil]
          rw [List.pairwise_append]
          refine ⟨hdb, List.pairwise_singleton _ _, ?_⟩
          intro x hx y hy
          rw [List.mem_singleton.1 hy]
          exact lt_nextId _ x hx

/-- Claim C7, amended.  When the query succeeds and its cursor delivers every row,
`getEntries` returns a rearrangement of the rows of the table (every row, as
many times as it is stored) with ids decreasing along the list, strictly so
when the ids of the table are pairwise distinct, which they are in every table
built from the empty one by create-entry requests.  For an empty table it
returns the empty list, whatever the outcome of the query.  After three
accepted requests on an empty table, which get the ids 1, 2 and 3, it returns
the rows with ids 3, 2, 1 in that order.  When the query fails it returns the
empty list, whatever the table holds. -/
theorem getEntries_newest_first :
    (∀ db : DB, (db.guestbook_entries.map GuestbookEntry.ID).Nodup →
      (getEntries db false none).Perm db.guestbook_entries ∧
      (getEntries db false none).Pairwise (fun a b => a.ID > b.ID)) ∧
    (∀ reqs : List (Option EntryRequest × Bool),
      ((createEntries DB.empty reqs).guestbook_entries.map GuestbookEntry.ID).Nodup) ∧
    (∀ (visitors : List Visitor) (queryFails : Bool) (cursorStops : Option Nat),
      getEntries ⟨visitors, []⟩ queryFails cursorStops = []) ∧
    (∀ r₁ r₂ r₃ : EntryRequest,
      r₁.Message ≠ [] → r₁.Color ≠ [] → r₂.Message ≠ [] → r₂.Color ≠ [] →
      r₃.Message ≠ [] → r₃.Color ≠ [] →
      (createEntries DB.empty [(some r₁, false), (some r₂, false), (some r₃, false)]).guestbook_entries
        = [⟨1, r₁.Name.take 15, r₁.Message.take 40, r₁.Color⟩,
           ⟨2, r₂.Name.take 15, r₂.Message.take 40, r₂.Color⟩,
           ⟨3, r₃.Name.take 15, r₃.Message.take 40, r₃.Color⟩] ∧
      getEntries (createEntries DB.empty [(some r₁, false), (some r₂, false), (some r₃, false)])
          false none
        = [⟨3, r₃.Name.take 15, r₃.Message.take 40, r₃.Color⟩,
           ⟨2, r₂.Name.take 15, r₂.Message.take 40, r₂.Color⟩,
           ⟨1, r₁.Name.take 15, r₁.Message.take 40, r₁.Color⟩]) ∧
    (∀ (db : DB) (cursorStops : Option Nat), getEntries db true cursorStops = []) := by
  refine ⟨?_, ?_, ?_, ?_, ?_⟩
  · intro db hnd
    rw [getEntries_eq]
    refine ⟨orderByIdDesc_perm _, ?_⟩
    have hperm := orderByIdDesc_perm db.guestbook_entries
    have hnd' : ((orderByIdDesc db.guestbook_entries).map GuestbookEntry.ID).Nodup :=
      (hperm.map GuestbookEntry.ID).nodup_iff.2 hnd
    have hne : (orderByIdDesc db.guestbook_entries).Pairwise fun a b => a.ID ≠ b.ID :=
      List.pairwise_map.1 hnd'
    exact ((orderByIdDesc_sorted db.guestbook_entries).and hne).imp
      (fun ⟨h1, h2⟩ => lt_of_le_of_ne h1 (Ne.symm h2))
  · intro reqs
    have h := createEntries_ids_increasing reqs DB.empty (by simp [DB.empty])
    exact h.imp (fun hlt => Nat.ne_of_lt hlt)
  · intro visitors queryFails cursorStops
    cases queryFails <;> cases cursorStops <;> simp [getEntries, DB.queryEntries, orderByIdDesc]
  · intro r₁ r₂ r₃ m₁ c₁ m₂ c₂ m₃ c₃
    have hdb : (createEntries DB.empty
        [(some r₁, false), (some r₂, false), (some r₃, false)]).guestbook_entries
        = [⟨1, r₁.Name.take 15, r₁.Message.take 40, r₁.Color⟩,
           ⟨2, r₂.Name.take 15, r₂.Message.take 40, r₂.Color⟩,
           ⟨3, r₃.Name.take 15, r₃.Message.take 40, r₃.Color⟩] := by
      simp [createEntries, handleCreateEntry_accept, m₁, c₁, m₂, c₂, m₃, c₃, DB.empty, nextId]
    refine ⟨hdb, ?_⟩
    rw [getEntries_eq, hdb]
    simp [orderByIdDesc, insertByIdDesc]
  · intro db cursorStops
    simp [getEntries]

theorem getEntries_newest_first_witness :
    (unorderedDB.guestbook_entries.map GuestbookEntry.ID).Nodup ∧
    (getEntries unorderedDB false none).map GuestbookEntry.ID = [5, 2, 1] ∧
    ((getEntries unorderedDB false none).Perm unorderedDB.guestbook_entries ∧
      (getEntries unorderedDB false none).Pairwise (fun a b => a.ID > b.ID)) ∧
    (getEntries (createEntries DB.empty
        [(some (textRequest "one"), false), (some (textRequest "two"), false),
         (some (textRequest "three"), false)]) false none).map GuestbookEntry.Message
      = [utf8 "three", utf8 "two", utf8 "one"] :=
  ⟨by decide, by decide, getEntries_newest_first.1 unorderedDB (by decide),
    by
      rw [(getEntries_newest_first.2.2.2.1 (textRequest "one") (textRequest "two")
        (textRequest "three") (by decide) (by decide) (by decide) (by decide) (by decide)
        (by decide)).2]
      decide⟩

/-- Counterexample to claim C7 as stated.  The table holds three rows with distinct ids.
When the query fails `getEntries` returns the empty list, which holds none of
them; when an error ends the iteration of the cursor after one row it returns
that row alone. -/
theorem getEntries_query_failure_counterexample :
    unorderedDB.guestbook_entries.length = 3 ∧
    (unorderedDB.guestbook_entries.map GuestbookEntry.ID).Nodup ∧
    getEntries unorderedDB true none = [] ∧
    ¬ (getEntries unorderedDB true none).Perm unorderedDB.guestbook_entries ∧
    (getEntries unorderedDB false (some 1)).map GuestbookEntry.ID = [5] ∧
    ¬ (getEntries unorderedDB false (some 1)).Perm unorderedDB.guestbook_entries := by
  refine ⟨by decide, by decide, by decide, ?_, by decide, ?_⟩
  · intro h
    have := h.length_eq
    revert this
    decide
  · intro h
    have := h.length_eq
    revert this
    decide

/-! ## Tile colours -/

theorem firstSeen_mem (l : List GoString) (x : GoString) : x ∈ firstSeen l ↔ x ∈ l := by
  induction l with
  | nil => simp [firstSeen]
  | cons c cs ih =>
    simp only [firstSeen, List.mem_cons, List.mem_filter, ih, decide_eq_true_eq]
    by_cases h : x = c <;> simp [h]

theorem firstSeen_nodup (l : List GoString) : (firstSeen l).Nodup := by
  induction l with
  | nil => simp [firstSeen]
  | cons c cs ih =>
    simp only [firstSeen]
    refine List.nodup_cons.2 ⟨?_, ih.filter _⟩
    simp [List.mem_filter]

theorem firstSeen_sublist (l : List GoString) : (firstSeen l).Sublist l := by
  induction l with
  | nil => simp [firstSeen]
  | cons c cs ih =>
    simp only [firstSeen]
    exact List.Sublist.cons₂ c ((List.filter_sublist _).trans ih)

theorem firstSeen_length (l : List GoString) : (firstSeen l).length = l.toFinset.card := by
  rw [← List.toFinset_card_of_nodup (firstSeen_nodup l)]
  congr 1
  ext x
  simp [firstSeen_mem]

theorem tileLoop_eq (es : List GuestbookEntry) (colorSet : GoString → Bool) (tiles : List GoString)
    (hset : ∀ c, colorSet c = true ↔ c ∈ tiles) (hlen : tiles.length < 8) :
    tileLoop es colorSet tiles =
      tiles ++ ((firstSeen (es.map GuestbookEntry.Color)).filter
        (fun x => decide (x ∉ tiles))).take (8 - tiles.length) := by
  induction es generalizing colorSet tiles with
  | nil => simp [tileLoop, firstSeen]
  | cons e es ih =>
    simp only [tileLoop, List.map_cons, firstSeen]
    by_cases hc : e.Color ∈ tiles
    · have hs : colorSet e.Color = true := (hset _).2 hc
      have hnl : ¬ tiles.length ≥ 8 := by omega
      simp only [hs, Bool.not_true, Bool.false_eq_true, if_false, hnl]
      rw [ih colorSet tiles hset hlen]
      congr 2
      rw [List.filter_cons_of_neg (by simpa using hc), List.filter_filter]
      apply List.filter_congr
      intro x _
      by_cases hx : x ∈ tiles
      · simp [hx]
      · have : x ≠ e.Color := fun h => hx (h ▸ hc)
        simp [hx, this]
    · have hs : colorSet e.Color = false := by
        cases h : colorSet e.Color with
        | false => rfl
        | true => exact absurd ((hset _).1 h) hc
      simp only [hs, Bool.not_false, if_true]
      rw [List.filter_cons_of_pos (by simpa using hc)]
      obtain ⟨k, hk⟩ : ∃ k, 8 - tiles.length = k + 1 := ⟨7 - tiles.length, by omega⟩
      rw [hk, List.take_succ_cons]
      by_cases hfull : (tiles ++ [e.Color]).length ≥ 8
      · have hk0 : k = 0 := by
          simp only [List.length_append, List.length_singleton] at hfull
          omega
        rw [if_pos hfull, hk0, List.take_zero]
      · simp only [hfull, if_false]
        have hlen' : (tiles ++ [e.Color]).length < 8 := by omega
        have hset' : ∀ c, (if c = e.Color then true else colorSet c) = true ↔
            c ∈ tiles ++ [e.Color] := by
          intro c
          by_cases hce : c = e.Color
          · simp [hce]
          · simp [hce, hset c]
        rw [ih _ (tiles ++ [e.Color]) hset' hlen']
        have hk' : 8 - (tiles ++ [e.Color]).length = k := by
          simp only [List.length_append, List.length_singleton]
          omega
        rw [hk', List.filter_filter, List.append_assoc, List.singleton_append]
        congr 3
        apply List.filter_congr
        intro x _
        by_cases hx : x ∈ tiles <;> by_cases hxe : x = e.Color <;> simp [hx, hxe]

theorem getOrCreateVisitor_returns (db : DB) (ipHash : GoString) (draw : Nat)
    (lookupFails : Bool) :
    ∃ v db', getOrCreateVisitor db ipHash draw lookupFails false = some (v, db') := by
  cases lookupFails with
  | true => exact ⟨_, _, getOrCreateVisitor_lookup_error db ipHash draw false⟩
  | false =>
    obtain ⟨v, db', h, -⟩ := getOrCreateVisitor_fingerprints db ipHash draw
    exact ⟨v, db', h⟩

theorem tileColors_eq (entries : List GuestbookEntry) :
    tileColors entries = (firstSeen (entries.map GuestbookEntry.Color)).take 8 := by
  rw [tileColors, tileLoop_eq entries (fun _ => false) [] (by simp) (by simp)]
  simp

theorem handleWall_page (db : DB) (remoteAddr : GoString) (draw : Nat)
    (lookupFails insertFails countFails queryFails : Bool) (cursorStops : Option Nat)
    (v : Visitor) (db' : DB)
    (hv : getOrCreateVisitor db (hashIP remoteAddr) draw lookupFails insertFails = some (v, db')) :
    ∃ page, HandleWall db (utf8 "/") remoteAddr draw lookupFails insertFails countFails queryFails
        cursorStops = some (some page, db') ∧
      page.Entries = getEntries db' queryFails cursorStops ∧
      page.TileColors = (firstSeen (page.Entries.map GuestbookEntry.Color)).take 8 := by
  refine ⟨⟨v.ID, v.AssignedColor, if countFails then 0 else db'.countVisitors,
    getEntries db' queryFails cursorStops,
    tileColors (getEntries db' queryFails cursorStops)⟩, ?_, rfl, tileColors_eq _⟩
  simp [HandleWall, hv]

/-- Claim C4.  For every list of entries, the tile colours computed by the loop of
`HandleWall` are the first 8 colours of the entries' colours with later
duplicates removed; they are pairwise distinct, they are `min 8 d` many where
`d` is the number of distinct colours among the entries, and so never more
than 8.  For a request of the path `/`, whatever the outcomes of the lookup,
the count and the query of the entries, `HandleWall` builds a page when the
insert of the visitor does not fail, and in every case it either panics or
builds a page; the tile colours of the page stand in this relation to the
entries of the page. -/
theorem tileColors_first_eight :
    (∀ entries : List GuestbookEntry,
      tileColors entries = (firstSeen (entries.map GuestbookEntry.Color)).take 8 ∧
      (tileColors entries).Nodup ∧
      (tileColors entries).length = min 8 (entries.map GuestbookEntry.Color).toFinset.card ∧
      (tileColors entries).length ≤ 8) ∧
    (∀ (db : DB) (remoteAddr : GoString) (draw : Nat) (lookupFails countFails queryFails : Bool)
        (cursorStops : Option Nat),
      ∃ page db', HandleWall db (utf8 "/") remoteAddr draw lookupFails false countFails queryFails
          cursorStops = some (some page, db') ∧
        page.Entries = getEntries db' queryFails cursorStops ∧
        page.TileColors = (firstSeen (page.Entries.map GuestbookEntry.Color)).take 8) ∧
    (∀ (db : DB) (remoteAddr : GoString) (draw : Nat)
        (lookupFails insertFails countFails queryFails : Bool) (cursorStops : Option Nat),
      HandleWall db (utf8 "/") remoteAddr draw lookupFails insertFails countFails queryFails
          cursorStops = none ∨
      ∃ page db', HandleWall db (utf8 "/") remoteAddr draw lookupFails insertFails countFails
          queryFails cursorStops = some (some page, db') ∧
        page.Entries = getEntries db' queryFails cursorStops ∧
        page.TileColors = (firstSeen (page.Entries.map GuestbookEntry.Color)).take 8) := by
  refine ⟨?_, ?_, ?_⟩
  · intro entries
    have h := tileColors_eq entries
    refine ⟨h, ?_, ?_, ?_⟩
    · rw [h]
      exact (firstSeen_nodup _).sublist (List.take_sublist _ _)
    · rw [h, List.length_take, firstSeen_length]
    · rw [h, List.length_take]
      exact min_le_left _ _
  · intro db remoteAddr draw lookupFails countFails queryFails cursorStops
    obtain ⟨v, db', hv⟩ := getOrCreateVisitor_returns db (hashIP remoteAddr) draw lookupFails
    obtain ⟨page, hp⟩ := handleWall_page db remoteAddr draw lookupFails false countFails
      queryFails cursorStops v db' hv
    exact ⟨page, db', hp⟩
  · intro db remoteAddr draw lookupFails insertFails countFails queryFails cursorStops
    cases hv : getOrCreateVisitor db (hashIP remoteAddr) draw lookupFails insertFails with
    | none =>
      left
      simp [HandleWall, hv]
    | some r =>
      obtain ⟨v, db'⟩ := r
      right
      obtain ⟨page, hp⟩ := handleWall_page db remoteAddr draw lookupFails insertFails countFails
        queryFails cursorStops v db' hv
      exact ⟨page, db', hp⟩

/-! ## `runMigrations` -/

theorem hasSuffix_iff (s suffix : GoString) : hasSuffix s suffix = true ↔ suffix <:+ s := by
  simp only [hasSuffix, Bool.and_eq_true, decide_eq_true_eq, beq_iff_eq]
  constructor
  · rintro ⟨-, h⟩
    have hs := List.take_append_drop (s.length - suffix.length) s
    rw [h] at hs
    exact ⟨s.take (s.length - suffix.length), hs⟩
  · rintro ⟨p, rfl⟩
    simp

theorem stringLess_nil_right (a : GoString) : stringLess a [] = false := by
  cases a <;> rfl

theorem stringLess_irrefl (a : GoString) : stringLess a a = false := by
  induction a with
  | nil => rfl
  | cons x xs ih => simp [stringLess, ih]

theorem stringLess_asymm (a b : GoString) (h : stringLess a b = true) : stringLess b a = false := by
  induction a generalizing b with
  | nil => exact stringLess_nil_right b
  | cons x xs ih =>
    cases b with
    | nil => simp [stringLess] at h
    | cons y ys =>
      simp only [stringLess] at h ⊢
      split_ifs at h ⊢
      all_goals first | omega | rfl | exact ih ys h

theorem stringLess_antisymm (a b : GoString) (h₁ : stringLess a b = false)
    (h₂ : stringLess b a = false) : a = b := by
  induction a generalizing b with
  | nil =>
    cases b with
    | nil => rfl
    | cons y ys => simp [stringLess] at h₁
  | cons x xs ih =>
    cases b with
    | nil => simp [stringLess] at h₂
    | cons y ys =>
      simp only [stringLess] at h₁ h₂
      split_ifs at h₁ h₂
      have hxy : x = y := UInt8.ext (by omega)
      rw [hxy, ih ys h₁ h₂]

theorem stringLe_trans (a b c : GoString) (h₁ : stringLess b a = false)
    (h₂ : stringLess c b = false) : stringLess c a = false := by
  induction a generalizing b c with
  | nil => exact stringLess_nil_right c
  | cons x xs ih =>
    cases b with
    | nil => simp [stringLess] at h₁
    | cons y ys =>
      cases c with
      | nil => simp [stringLess] at h₂
      | cons z zs =>
        simp only [stringLess] at h₁ h₂ ⊢
        split_ifs at h₁ h₂ ⊢
        all_goals first | omega | rfl | exact ih ys zs h₁ h₂

theorem insertString_perm (x : GoString) (l : List GoString) :
    (insertString x l).Perm (x :: l) := by
  induction l with
  | nil => exact List.Perm.refl _
  | cons y ys ih =>
    simp only [insertString]
    split
    · exact List.Perm.refl _
    · exact (List.Perm.cons y ih).trans (List.Perm.swap x y ys)

theorem sortStrings_perm (l : List GoString) : (sortStrings l).Perm l := by
  induction l with
  | nil => exact List.Perm.refl _
  | cons x xs ih => exact (insertString_perm x _).trans (List.Perm.cons x ih)

theorem insertString_sorted (x : GoString) (l : List GoString)
    (h : l.Pairwise fun a b => stringLess b a = false) :
    (insertString x l).Pairwise fun a b => stringLess b a = false := by
  induction l with
  | nil => simp [insertString]
  | cons y ys ih =>
    rw [List.pairwise_cons] at h
    simp only [insertString]
    split
    · rename_i hlt
      have hxy : stringLess y x = false := stringLess_asymm x y hlt
      refine List.pairwise_cons.2 ⟨?_, List.pairwise_cons.2 h⟩
      intro b hb
      rcases List.mem_cons.1 hb with hb | hb
      · rw [hb]; exact hxy
      · exact stringLe_trans x y b hxy (h.1 b hb)
    · rename_i hnlt
      refine List.pairwise_cons.2 ⟨?_, ih h.2⟩
      intro b hb
      rcases List.mem_cons.1 ((insertString_perm x ys).subset hb) with hb | hb
      · rw [hb]; simpa using hnlt
      · exact h.1 b hb

theorem sortStrings_sorted (l : List GoString) :
    (sortStrings l).Pairwise fun a b => stringLess b a = false := by
  induction l with
  | nil => simp [sortStrings]
  | cons x xs ih => exact insertString_sorted x _ ih

theorem sortStrings_perm_eq (l₁ l₂ : List GoString) (h : l₁.Perm l₂) :
    sortStrings l₁ = sortStrings l₂ := by
  haveI : IsAntisymm GoString (fun a b => stringLess b a = false) :=
    ⟨fun a b h₁ h₂ => stringLess_antisymm a b h₂ h₁⟩
  exact List.eq_of_perm_of_sorted
    (((sortStrings_perm l₁).trans h).trans (sortStrings_perm l₂).symm)
    (sortStrings_sorted l₁) (sortStrings_sorted l₂)

theorem foldl_suffix_filter (names acc : List GoString) :
    names.foldl (fun files name => if hasSuffix name (utf8 ".sql") then files ++ [name] else files)
        acc = acc ++ names.filter (fun name => hasSuffix name (utf8 ".sql")) := by
  induction names generalizing acc with
  | nil => simp
  | cons n ns ih =>
    simp only [List.foldl_cons, List.filter_cons]
    split
    · rw [ih]; simp
    · rw [ih]

theorem execFiles_run (fs : MigrationsFS) (execFails : GoString → Bool)
    (files acc : List GoString) :
    (execFiles fs execFails files acc).executed.map some =
      acc.map some ++ (files.takeWhile fun f => (fs.readFile f).isSome).map fs.readFile ∧
    ((execFiles fs execFails files acc).failed = true ↔ ∃ f ∈ files, fs.readFile f = none) := by
  induction files generalizing acc with
  | nil => simp [execFiles]
  | cons f rest ih =>
    cases hf : fs.readFile f with
    | none =>
      simp [execFiles, hf]
    | some content =>
      have ih' := ih (acc ++ [content])
      simp only [execFiles, hf, ite_self]
      refine ⟨?_, ?_⟩
      · rw [ih'.1]
        simp [List.takeWhile, hf]
      · rw [ih'.2]
        simp [hf]

theorem execFiles_readFile (fs fs' : MigrationsFS) (execFails : GoString → Bool)
    (h : fs'.readFile = fs.readFile) (files acc : List GoString) :
    execFiles fs' execFails files acc = execFiles fs execFails files acc := by
  induction files generalizing acc with
  | nil => rfl
  | cons f rest ih => simp only [execFiles, h, ih]

theorem runMigrations_eq (fs : MigrationsFS) (execFails : GoString → Bool) (names : List GoString)
    (hdir : fs.readDir = some names) :
    runMigrations fs execFails =
      execFiles fs execFails
        (sortStrings (names.filter fun name => hasSuffix name (utf8 ".sql"))) [] := by
  simp [runMigrations, hdir, foldl_suffix_filter]

/-- Claim C9, amended.  Let the directory listing give `names`.  There is a list `files`,
a rearrangement of the listed names ending in `.sql` (so each such name occurs
once when the listing has no repetition, and no other name occurs) in
ascending byte-wise order, strictly ascending when the names are distinct,
such that `runMigrations` executes the contents of the files of `files` in
that order up to the first one that cannot be read, whichever executions
fail.  It returns an error exactly when a listed name ending in `.sql` cannot
be read; when all of them can be read it returns no error and executes every
one of them.  The run is the same for every other order of the listing. -/
theorem runMigrations_sorted_sql (fs : MigrationsFS) (execFails : GoString → Bool)
    (names : List GoString) (hdir : fs.readDir = some names) :
    (∃ files : List GoString,
      files.Perm (names.filter fun n => decide (utf8 ".sql" <:+ n)) ∧
      files.Pairwise (fun a b => stringLess b a = false) ∧
      (names.Nodup → files.Pairwise (fun a b => stringLess a b = true)) ∧
      (runMigrations fs execFails).executed.map some =
        (files.takeWhile fun f => (fs.readFile f).isSome).map fs.readFile ∧
      ((∀ n ∈ names, utf8 ".sql" <:+ n → (fs.readFile n).isSome = true) →
        (runMigrations fs execFails).failed = false ∧
        (runMigrations fs execFails).executed.map some = files.map fs.readFile)) ∧
    ((runMigrations fs execFails).failed = true ↔
      ∃ n ∈ names, utf8 ".sql" <:+ n ∧ fs.readFile n = none) ∧
    (∀ names' : List GoString, names'.Perm names →
      runMigrations { fs with readDir := some names' } execFails = runMigrations fs execFails) := by
  have hfilter : (names.filter fun n => decide (utf8 ".sql" <:+ n)) =
      names.filter fun n => hasSuffix n (utf8 ".sql") := by
    apply List.filter_congr
    intro n _
    rw [Bool.eq_iff_iff]
    simp [hasSuffix_iff]
  have hperm := sortStrings_perm (names.filter fun n => hasSuffix n (utf8 ".sql"))
  have hsorted := sortStrings_sorted (names.filter fun n => hasSuffix n (utf8 ".sql"))
  have hmem : ∀ f, f ∈ sortStrings (names.filter fun n => hasSuffix n (utf8 ".sql")) ↔
      f ∈ names ∧ utf8 ".sql" <:+ f := by
    intro f
    rw [hperm.mem_iff, List.mem_filter, hasSuffix_iff]
  have hexec := execFiles_run fs execFails
    (sortStrings (names.filter fun n => hasSuffix n (utf8 ".sql"))) []
  rw [← runMigrations_eq fs execFails names hdir] at hexec
  have hfail : (runMigrations fs execFails).failed = true ↔
      ∃ n ∈ names, utf8 ".sql" <:+ n ∧ fs.readFile n = none := by
    rw [hexec.2]
    constructor
    · rintro ⟨f, hf, hnone⟩
      exact ⟨f, ((hmem f).1 hf).1, ((hmem f).1 hf).2, hnone⟩
    · rintro ⟨n, hn, hsuf, hnone⟩
      exact ⟨n, (hmem n).2 ⟨hn, hsuf⟩, hnone⟩
  refine ⟨⟨_, by rw [hfilter]; exact hperm, hsorted, ?_, by simpa using hexec.1, ?_⟩, hfail, ?_⟩
  · intro hnd
    have hnd' : (sortStrings (names.filter fun n => hasSuffix n (utf8 ".sql"))).Nodup :=
      hperm.nodup_iff.2 (hnd.filter _)
    refine (hsorted.and hnd').imp ?_
    rintro a b ⟨hle, hne⟩
    cases hlt : stringLess a b with
    | true => rfl
    | false => exact absurd (stringLess_antisymm a b hlt hle) hne
  · intro hread
    have hok : (runMigrations fs execFails).failed = false := by
      cases hfl : (runMigrations fs execFails).failed with
      | false => rfl
      | true =>
        obtain ⟨n, hn, hsuf, hnone⟩ := hfail.1 hfl
        have := hread n hn hsuf
        rw [hnone] at this
        exact absurd this (by simp)
    refine ⟨hok, ?_⟩
    have hall : (sortStrings (names.filter fun n => hasSuffix n (utf8 ".sql"))).takeWhile
        (fun f => (fs.readFile f).isSome) =
        sortStrings (names.filter fun n => hasSuffix n (utf8 ".sql")) := by
      rw [List.takeWhile_eq_self_iff]
      intro f hf
      exact hread f ((hmem f).1 hf).1 ((hmem f).1 hf).2
    have h1 := hexec.1
    rw [hall] at h1
    simpa using h1
  · intro names' hp
    rw [runMigrations_eq fs execFails names hdir,
      runMigrations_eq { fs with readDir := some names' } execFails names' rfl,
      sortStrings_perm_eq _ _ (hp.filter _)]
    exact execFiles_readFile fs { fs with readDir := some names' } execFails rfl _ _

theorem runMigrations_sorted_sql_witness :
    sampleFS.readDir = some sampleNames ∧
    runMigrations sampleFS (fun _ => true) =
      ⟨[utf8 "CREATE TABLE visitors (id INTEGER)",
        utf8 "CREATE TABLE guestbook_entries (id INTEGER)"], false⟩ ∧
    ((∃ files : List GoString,
      files.Perm (sampleNames.filter fun n => decide (utf8 ".sql" <:+ n)) ∧
      files.Pairwise (fun a b => stringLess b a = false) ∧
      (sampleNames.Nodup → files.Pairwise (fun a b => stringLess a b = true)) ∧
      (runMigrations sampleFS (fun _ => true)).executed.map some =
        (files.takeWhile fun f => (sampleFS.readFile f).isSome).map sampleFS.readFile ∧
      ((∀ n ∈ sampleNames, utf8 ".sql" <:+ n → (sampleFS.readFile n).isSome = true) →
        (runMigrations sampleFS (fun _ => true)).failed = false ∧
        (runMigrations sampleFS (fun _ => true)).executed.map some =
          files.map sampleFS.readFile)) ∧
    ((runMigrations sampleFS (fun _ => true)).failed = true ↔
      ∃ n ∈ sampleNames, utf8 ".sql" <:+ n ∧ sampleFS.readFile n = none) ∧
    (∀ names' : List GoString, names'.Perm sampleNames →
      runMigrations { sampleFS with readDir := some names' } (fun _ => true) =
        runMigrations sampleFS (fun _ => true))) :=
  ⟨rfl, by decide, runMigrations_sorted_sql sampleFS (fun _ => true) sampleNames rfl⟩

/-- Counterexample to claim C9 as stated.  The listing holds the schema file
`001_visitors.sql` and an entry `000_dir.sql` that cannot be read, as for a
directory of that name.  No execution fails, yet `runMigrations` returns an
error and executes nothing: the file `001_visitors.sql`, whose name ends in
`.sql`, is not executed. -/
theorem runMigrations_unreadable_counterexample :
    unreadableFS.readDir = some [utf8 "001_visitors.sql", utf8 "000_dir.sql"] ∧
    hasSuffix (utf8 "001_visitors.sql") (utf8 ".sql") = true ∧
    unreadableFS.readFile (utf8 "001_visitors.sql") =
      some (utf8 "CREATE TABLE visitors (id INTEGER)") ∧
    unreadableFS.readFile (utf8 "000_dir.sql") = none ∧
    runMigrations unreadableFS (fun _ => false) = ⟨[], true⟩ := by
  decide

/-! ## `hashIP` -/

theorem stringsSplit_host (host port : GoString) (h : (58 : UInt8) ∉ host) :
    stringsSplit 58 (host ++ 58 :: port) = host :: stringsSplit 58 port := by
  induction host with
  | nil => simp [stringsSplit]
  | cons b bs ih =>
    have hb : b ≠ 58 := fun hb => h (hb ▸ List.mem_cons_self _ _)
    have hbs : (58 : UInt8) ∉ bs := fun hbs => h (List.mem_cons_of_mem _ hbs)
    simp [stringsSplit, hb, ih hbs]

theorem hexDigit_injective : ∀ i j : Fin 16, hexDigit i.val = hexDigit j.val → i = j := by
  decide

theorem sprintfHex_injective (a b : GoString) (h : sprintfHex a = sprintfHex b) : a = b := by
  induction a generalizing b with
  | nil =>
    cases b with
    | nil => rfl
    | cons y ys => simp [sprintfHex] at h
  | cons x xs ih =>
    cases b with
    | nil => simp [sprintfHex] at h
    | cons y ys =>
      simp only [sprintfHex, List.flatMap_cons, List.cons_append, List.nil_append,
        List.cons.injEq] at h
      obtain ⟨h1, h2, h3⟩ := h
      have hx : x.toNat < 256 := x.toNat_lt
      have hy : y.toNat < 256 := y.toNat_lt
      have e1 := hexDigit_injective ⟨x.toNat / 16, by omega⟩ ⟨y.toNat / 16, by omega⟩ h1
      have e2 := hexDigit_injective ⟨x.toNat % 16, Nat.mod_lt _ (by decide)⟩
        ⟨y.toNat % 16, Nat.mod_lt _ (by decide)⟩ h2
      simp only [Fin.mk.injEq] at e1 e2
      have hxy : x = y := UInt8.ext (by omega)
      rw [hxy, ih ys h3]

/-- For a host without a colon, such as an
IPv4 address or a host name, the fingerprint of `host:port` is the hexadecimal
form of the host, whatever the port, and two such hosts with the same
fingerprint are the same host. -/
theorem hashIP_host_without_colon (host port : GoString) (h : (58 : UInt8) ∉ host) :
    hashIP (host ++ 58 :: port) = sprintfHex host ∧
    ∀ host' port' : GoString, (58 : UInt8) ∉ host' →
      hashIP (host' ++ 58 :: port') = hashIP (host ++ 58 :: port) → host' = host := by
  have key : ∀ (a p : GoString), (58 : UInt8) ∉ a → hashIP (a ++ 58 :: p) = sprintfHex a := by
    intro a p ha
    simp [hashIP, stringsSplit_host a p ha]
  refine ⟨key host port h, ?_⟩
  intro host' port' h' heq
  rw [key host port h, key host' port' h'] at heq
  exact sprintfHex_injective _ _ heq

theorem hashIP_host_without_colon_witness :
    (58 : UInt8) ∉ utf8 "127.0.0.1" ∧
    hashIP (utf8 "127.0.0.1" ++ 58 :: utf8 "5000") = sprintfHex (utf8 "127.0.0.1") :=
  ⟨by decide, (hashIP_host_without_colon (utf8 "127.0.0.1") (utf8 "5000") (by decide)).1⟩

/-- Claim C5 at an IPv6 client.  The server writes the address of the client `::1` with
port 8080 as `[::1]:8080`; `hashIP` keeps what precedes the first colon, the
bracket alone, and returns `5b`, not the hexadecimal form `3a3a31` of the
host.  For the clients `2001:db8::1` and `2001:db8::2` it keeps `[2001` and
returns the same fingerprint for both, so the fingerprint does not determine
the host.  Without the brackets the result for `::1` is the empty string. -/
theorem hashIP_ipv6 :
    joinHostPort (utf8 "::1") (utf8 "8080") = utf8 "[::1]:8080" ∧
    hashIP (joinHostPort (utf8 "::1") (utf8 "8080")) = utf8 "5b" ∧
    sprintfHex (utf8 "::1") = utf8 "3a3a31" ∧
    hashIP (joinHostPort (utf8 "::1") (utf8 "8080")) ≠ sprintfHex (utf8 "::1") ∧
    hashIP (joinHostPort (utf8 "2001:db8::1") (utf8 "8080")) = sprintfHex (utf8 "[2001") ∧
    hashIP (joinHostPort (utf8 "2001:db8::2") (utf8 "8080")) =
      hashIP (joinHostPort (utf8 "2001:db8::1") (utf8 "8080")) ∧
    hashIP (utf8 "::1" ++ 58 :: utf8 "8080") = [] := by
  decide

end TheWall
